import Mathlib

/-!
Verification of the IMDER train/eval loop (`src/trains/singleTask/IMDER.py`).

The file shallowly embeds the pieces of `IMDER.do_train` / `IMDER.do_test`
that the specification talks about:

* the per-batch modality-availability scheduler (lines 66-75 and 161-170),
* the gradient-accumulation counter `left_epochs` (lines 51-56 and 94-99),
* the best-checkpoint improvement rule (line 118),
* the eval-loss aggregation and 4-digit rounding (lines 180-188) and its
  consumption by the training controller (lines 112-113),
* the combined-loss formula (line 83),
* the epoch loop with its early-stop condition (lines 43-44, 110-133).

Python/numpy floating point is modelled with exact rationals: every numeric
comparison the claims exercise involves ratios with small decimal denominators,
where float64 rounding provably cannot flip the outcome, except that division
by zero on IEEE floats yields nan or +inf (no exception) and any `<` comparison
against such a value is False; `floatRatioLt` encodes that case explicitly.
`np.round` and Python `round` round half to even, modelled by `roundHalfEven`.
-/

namespace IMDER

/-- Number of modalities the model is allowed to use for a batch
(`num_modal` in the calls `model(text, audio, vision, num_modal=k)`). -/
inductive Presence where
  | one
  | two
  | three
deriving DecidableEq, Repr

/-- The per-pass counters `miss_two` and `miss_one` (lines 50 and 138),
reset to 0 at the start of every split pass. -/
structure Counters where
  missTwo : Nat
  missOne : Nat
deriving DecidableEq, Repr

/-- `miss_2 = [0.1, 0.2, 0.3, 0.5, 0.7, 0.9, 1.0]` (lines 66 and 161). -/
def miss_2 : List ℚ := [1/10, 2/10, 3/10, 5/10, 7/10, 9/10, 1]

/-- `miss_1 = [0.1, 0.2, 0.3, 0.2, 0.1, 0.0, 0.0]` (lines 67 and 162). -/
def miss_1 : List ℚ := [1/10, 2/10, 3/10, 2/10, 1/10, 0, 0]

/-- Round half to even on ℚ: the rounding mode of both `np.round` and Python
`round`. -/
def roundHalfEven (q : ℚ) : ℤ :=
  if q - ⌊q⌋ < 1/2 then ⌊q⌋
  else if (1 : ℚ)/2 < q - ⌊q⌋ then ⌊q⌋ + 1
  else if ⌊q⌋ % 2 = 0 then ⌊q⌋ else ⌊q⌋ + 1

/-- `np.round(len(dataloader) / 10) * 10` (lines 68, 71, 163, 166): the batch
count rounded to the nearest multiple of 10, halves to even. -/
def normalizedTotal (n : Nat) : Nat :=
  10 * (roundHalfEven ((n : Nat) / (10 : ℚ))).toNat

/-- `int(mr * 10 - 1)`: the index into the two ratio tables. Python `int()`
truncates toward zero; on the in-range arguments (`mr ≥ 0.1`) the operand is
nonnegative, where truncation coincides with the floor used here. -/
def mrIndex (mr : ℚ) : Nat := (⌊mr * 10 - 1⌋).toNat

/-- The comparison `count / nt < target` as executed on IEEE float64
(lines 68, 71, 163, 166). When `nt = 0` the division yields nan (count = 0)
or +inf (count > 0) with no exception, and the `<` comparison is False in
either case; otherwise the operands are exact small-denominator decimals where
float64 rounding cannot change the outcome of the comparison, so the exact
rational comparison is used. -/
def floatRatioLt (count : Nat) (nt : Nat) (target : ℚ) : Bool :=
  nt != 0 && decide ((count : ℚ) / (nt : ℚ) < target)

/-- One scheduler decision for one batch (lines 66-75 of `do_train`; the
identical block at lines 161-170 of `do_test`): greedy priority order on the
two cumulative counters.  `total` is `len(dataloader)`, `idx` the table index
`int(mr * 10 - 1)`. -/
def schedStep (total idx : Nat) (c : Counters) : Presence × Counters :=
  if floatRatioLt c.missTwo (normalizedTotal total) (miss_2.getD idx 0) then
    (Presence.one, { c with missTwo := c.missTwo + 1 })
  else if floatRatioLt c.missOne (normalizedTotal total) (miss_1.getD idx 0) then
    (Presence.two, { c with missOne := c.missOne + 1 })
  else
    (Presence.three, c)

/-- Counters after the first `k` batches of a pass (both counters start at 0,
lines 50 and 138). -/
def schedCounters (total idx : Nat) : Nat → Counters
  | 0 => ⟨0, 0⟩
  | k + 1 => (schedStep total idx (schedCounters total idx k)).2

/-- The presence decided for batch `k` (0-based) of a pass. -/
def schedPresence (total idx k : Nat) : Presence :=
  (schedStep total idx (schedCounters total idx k)).1

/-- The sequence of presence decisions over the first `n` batches of a pass. -/
def schedTrace (total idx n : Nat) : List Presence :=
  (List.range n).map (schedPresence total idx)

/-!
## Executable mirrors

The ℚ-valued definitions above mirror the Python source textually, but the
Lean kernel cannot evaluate `Rat` arithmetic (its primitives are defined by
well-founded recursion), so concrete runs are evaluated on pure-`Nat` mirrors
that are proved pointwise equal to the source-shaped definitions.
-/

/-- `Nat`-only mirror of `normalizedTotal`: round `n / 10` half to even,
times 10. -/
def normalizedTotalN (n : ℕ) : ℕ :=
  10 * (if n % 10 < 5 then n / 10
        else if 5 < n % 10 then n / 10 + 1
        else if n / 10 % 2 = 0 then n / 10 else n / 10 + 1)

lemma floor_natCast_div_ten (n : ℕ) : ⌊(n : ℚ) / 10⌋ = ((n / 10 : ℕ) : ℤ) := by
  have h : (n : ℚ) / 10 = ((n : ℤ) : ℚ) / ((10 : ℕ) : ℚ) := by push_cast; ring
  rw [h, Rat.floor_intCast_div_natCast]
  omega

lemma fract_natCast_div_ten (n : ℕ) :
    (n : ℚ) / 10 - (⌊(n : ℚ) / 10⌋ : ℚ) = ((n % 10 : ℕ) : ℚ) / 10 := by
  rw [floor_natCast_div_ten]
  have h2 : (n : ℚ) = 10 * ((n / 10 : ℕ) : ℚ) + ((n % 10 : ℕ) : ℚ) := by
    exact_mod_cast congrArg (Nat.cast (R := ℚ)) (Nat.div_add_mod n 10).symm
  have h3 : ((((n / 10 : ℕ) : ℤ)) : ℚ) = ((n / 10 : ℕ) : ℚ) := by norm_cast
  rw [h3, h2]
  ring

lemma natCast_div_ten_lt_half (r : ℕ) : ((r : ℚ) / 10 < 1/2) ↔ r < 5 := by
  rw [div_lt_iff₀ (by norm_num : (0:ℚ) < 10)]
  norm_num

lemma half_lt_natCast_div_ten (r : ℕ) : ((1:ℚ)/2 < (r : ℚ) / 10) ↔ 5 < r := by
  rw [lt_div_iff₀ (by norm_num : (0:ℚ) < 10)]
  norm_num

lemma normalizedTotal_eq (n : ℕ) : normalizedTotal n = normalizedTotalN n := by
  unfold normalizedTotal normalizedTotalN roundHalfEven
  rw [fract_natCast_div_ten, floor_natCast_div_ten]
  rcases Nat.lt_trichotomy (n % 10) 5 with h | h | h
  · rw [if_pos ((natCast_div_ten_lt_half _).mpr h), if_pos h]
    omega
  · have h1 : ¬ (((n % 10 : ℕ) : ℚ) / 10 < 1/2) := by
      rw [natCast_div_ten_lt_half]; omega
    have h2 : ¬ ((1:ℚ)/2 < ((n % 10 : ℕ) : ℚ) / 10) := by
      rw [half_lt_natCast_div_ten]; omega
    rw [if_neg h1, if_neg h2, if_neg (by omega : ¬ n % 10 < 5),
      if_neg (by omega : ¬ 5 < n % 10)]
    have hpar : (((n / 10 : ℕ) : ℤ) % 2 = 0) ↔ (n / 10 % 2 = 0) := by omega
    by_cases hp : n / 10 % 2 = 0
    · rw [if_pos (hpar.mpr hp), if_pos hp]; omega
    · rw [if_neg (fun hh => hp (hpar.mp hh)), if_neg hp]; omega
  · have h1 : ¬ (((n % 10 : ℕ) : ℚ) / 10 < 1/2) := by
      rw [natCast_div_ten_lt_half]; omega
    rw [if_neg h1, if_pos ((half_lt_natCast_div_ten _).mpr h),
      if_neg (by omega : ¬ n % 10 < 5), if_pos h]
    omega

/-- `Nat`-only mirror of `floatRatioLt` for a target of the form `p / 10`. -/
def floatRatioLtN (count nt p : ℕ) : Bool :=
  nt != 0 && decide (10 * count < p * nt)

lemma floatRatioLt_eq (count nt p : ℕ) :
    floatRatioLt count nt ((p : ℚ) / 10) = floatRatioLtN count nt p := by
  unfold floatRatioLt floatRatioLtN
  rcases Nat.eq_zero_or_pos nt with h | h
  · subst h; rfl
  · have hnt : (0:ℚ) < (nt : ℚ) := by exact_mod_cast h
    congr 1
    apply decide_eq_decide.mpr
    rw [div_lt_div_iff₀ hnt (by norm_num : (0:ℚ) < 10)]
    constructor
    · intro hh
      have hh2 : count * 10 < p * nt := by exact_mod_cast hh
      omega
    · intro hh
      have hh2 : count * 10 < p * nt := by omega
      exact_mod_cast hh2

/-- Numerators (over denominator 10) of the `miss_2` table. -/
def miss_2N : List ℕ := [1, 2, 3, 5, 7, 9, 10]

/-- Numerators (over denominator 10) of the `miss_1` table. -/
def miss_1N : List ℕ := [1, 2, 3, 2, 1, 0, 0]

lemma miss_2_getD (idx : ℕ) :
    miss_2.getD idx 0 = ((miss_2N.getD idx 0 : ℕ) : ℚ) / 10 := by
  rcases idx with _|_|_|_|_|_|_|m <;> simp [miss_2, miss_2N]

lemma miss_1_getD (idx : ℕ) :
    miss_1.getD idx 0 = ((miss_1N.getD idx 0 : ℕ) : ℚ) / 10 := by
  rcases idx with _|_|_|_|_|_|_|m <;> simp [miss_1, miss_1N]

/-- `Nat`-only mirror of `schedStep`. -/
def schedStepN (total idx : ℕ) (c : Counters) : Presence × Counters :=
  if floatRatioLtN c.missTwo (normalizedTotalN total) (miss_2N.getD idx 0) then
    (Presence.one, { c with missTwo := c.missTwo + 1 })
  else if floatRatioLtN c.missOne (normalizedTotalN total) (miss_1N.getD idx 0) then
    (Presence.two, { c with missOne := c.missOne + 1 })
  else
    (Presence.three, c)

lemma schedStep_eq (total idx : ℕ) (c : Counters) :
    schedStep total idx c = schedStepN total idx c := by
  unfold schedStep schedStepN
  rw [miss_2_getD, miss_1_getD, normalizedTotal_eq, floatRatioLt_eq, floatRatioLt_eq]

/-- `Nat`-only mirror of `schedCounters`. -/
def schedCountersN (total idx : ℕ) : ℕ → Counters
  | 0 => ⟨0, 0⟩
  | k + 1 => (schedStepN total idx (schedCountersN total idx k)).2

lemma schedCounters_eq (total idx : ℕ) : ∀ k,
    schedCounters total idx k = schedCountersN total idx k
  | 0 => rfl
  | k + 1 => by
    show (schedStep total idx (schedCounters total idx k)).2 = _
    rw [schedCounters_eq total idx k, schedStep_eq]
    rfl

/-- `Nat`-only mirror of `schedPresence`. -/
def schedPresenceN (total idx k : ℕ) : Presence :=
  (schedStepN total idx (schedCountersN total idx k)).1

lemma schedPresence_eq (total idx k : ℕ) :
    schedPresence total idx k = schedPresenceN total idx k := by
  unfold schedPresence schedPresenceN
  rw [schedCounters_eq, schedStep_eq]

/-- `Nat`-only mirror of `schedTrace`. -/
def schedTraceN (total idx n : ℕ) : List Presence :=
  (List.range n).map (schedPresenceN total idx)

lemma schedTrace_eq (total idx n : ℕ) :
    schedTrace total idx n = schedTraceN total idx n := by
  unfold schedTrace schedTraceN
  exact List.map_congr_left fun k _ => schedPresence_eq total idx k

lemma mrIndex_04 : mrIndex (4/10) = 3 := by
  have h : (4/10 : ℚ) * 10 - 1 = 3 := by norm_num
  rw [mrIndex, h, Int.floor_ofNat]
  rfl

/-- C1: each batch is decided greedily in priority order — ONE (and bump
`missTwo`) when the two-missing ratio is below its target, else TWO (and bump
`missOne`) when the one-missing ratio is below its target, else THREE with no
counter change; concretely at mr = 0.4 (table index 3) with 10 batches and
normalizedTotal 10, batches 1-5 get ONE, 6-7 get TWO, 8-10 get THREE. -/
theorem scheduler_greedy_priority_and_mr04_trace :
    (∀ total idx c,
      ((schedStep total idx c).1 = Presence.one ↔
        floatRatioLt c.missTwo (normalizedTotal total) (miss_2.getD idx 0) = true) ∧
      ((schedStep total idx c).1 = Presence.two ↔
        floatRatioLt c.missTwo (normalizedTotal total) (miss_2.getD idx 0) = false ∧
        floatRatioLt c.missOne (normalizedTotal total) (miss_1.getD idx 0) = true) ∧
      ((schedStep total idx c).1 = Presence.three ↔
        floatRatioLt c.missTwo (normalizedTotal total) (miss_2.getD idx 0) = false ∧
        floatRatioLt c.missOne (normalizedTotal total) (miss_1.getD idx 0) = false) ∧
      ((schedStep total idx c).2.missTwo =
        if (schedStep total idx c).1 = Presence.one then c.missTwo + 1 else c.missTwo) ∧
      ((schedStep total idx c).2.missOne =
        if (schedStep total idx c).1 = Presence.two then c.missOne + 1 else c.missOne)) ∧
    mrIndex (4/10) = 3 ∧
    normalizedTotal 10 = 10 ∧
    schedTrace 10 3 10 =
      [Presence.one, Presence.one, Presence.one, Presence.one, Presence.one,
       Presence.two, Presence.two, Presence.three, Presence.three, Presence.three] := by
  refine ⟨?_, mrIndex_04, by rw [normalizedTotal_eq]; decide,
    by rw [schedTrace_eq]; decide⟩
  intro total idx c
  unfold schedStep
  cases hA : floatRatioLt c.missTwo (normalizedTotal total) (miss_2.getD idx 0) <;>
    cases hB : floatRatioLt c.missOne (normalizedTotal total) (miss_1.getD idx 0) <;>
    simp

/-!
## Gradient accumulation (`left_epochs`, lines 51-56 and 94-99)
-/

/-- State of the gradient-accumulation bookkeeping: the `left_epochs`
countdown and how many `optimizer.step()` calls have run so far. -/
structure AccumState where
  leftEpochs : ℤ
  stepsDone : ℕ
deriving DecidableEq, Repr

/-- One train batch's effect on the accumulation counter: `left_epochs -= 1`
(line 56), then `if not left_epochs: optimizer.step(); left_epochs =
self.args.update_epochs` (lines 94-96). -/
def accumBatch (updateEpochs : ℕ) (s : AccumState) : AccumState :=
  let left := s.leftEpochs - 1
  if left = 0 then ⟨(updateEpochs : ℤ), s.stepsDone + 1⟩ else ⟨left, s.stepsDone⟩

/-- The accumulation state after `n` train batches, starting from
`left_epochs = self.args.update_epochs` (line 51). -/
def accumRun (updateEpochs : ℕ) : ℕ → AccumState
  | 0 => ⟨(updateEpochs : ℤ), 0⟩
  | n + 1 => accumBatch updateEpochs (accumRun updateEpochs n)

/-- The post-loop `if not left_epochs: optimizer.step()` (lines 97-99):
fires exactly when `left_epochs` is 0 after the batch loop. -/
def tailStepFires (updateEpochs n : ℕ) : Bool :=
  decide ((accumRun updateEpochs n).leftEpochs = 0)

/-- For any positive `update_epochs`, `left_epochs` stays in `[1, update_epochs]`
after every batch, so the post-loop `if not left_epochs` test can never be
true: the tail flush is dead code. -/
lemma accumRun_leftEpochs_pos (updateEpochs : ℕ) (h : 1 ≤ updateEpochs) :
    ∀ n, 1 ≤ (accumRun updateEpochs n).leftEpochs ∧
      (accumRun updateEpochs n).leftEpochs ≤ (updateEpochs : ℤ)
  | 0 =>
    ⟨by show (1:ℤ) ≤ ((updateEpochs : ℤ)); omega,
     by show ((updateEpochs : ℤ)) ≤ ((updateEpochs : ℤ)); omega⟩
  | n + 1 => by
    obtain ⟨h1, h2⟩ := accumRun_leftEpochs_pos updateEpochs h n
    show 1 ≤ (accumBatch updateEpochs (accumRun updateEpochs n)).leftEpochs ∧
      (accumBatch updateEpochs (accumRun updateEpochs n)).leftEpochs ≤ (updateEpochs : ℤ)
    simp only [accumBatch]
    split <;> dsimp only <;> constructor <;> omega

/-- C2 (code bug): with `update_epochs = 2` and a pass of 3 train batches,
the partial tail (batch 3) does NOT trigger a final optimizer step: after the
loop `left_epochs = 1`, only one step ever ran (after batch 2), and the
post-loop `if not left_epochs: optimizer.step()` (comment `# update`) is dead
code — in-loop resets make `left_epochs = 0` impossible there. -/
theorem accumulation_tail_step_never_fires :
    accumRun 2 3 = ⟨1, 1⟩ ∧ tailStepFires 2 3 = false := by
  constructor <;> decide

/-!
## Best-checkpoint improvement rule (line 118)
-/

/-- Line 118, `min_or_max = 'min'` branch:
`isBetter = cur_valid <= (best_valid - 1e-6)`. -/
def isBetterMin (curValid bestValid : ℚ) : Bool :=
  decide (curValid ≤ bestValid - 1/1000000)

/-- Line 118, `min_or_max = 'max'` branch:
`isBetter = cur_valid >= (best_valid + 1e-6)`. -/
def isBetterMax (curValid bestValid : ℚ) : Bool :=
  decide (bestValid + 1/1000000 ≤ curValid)

/-- The improvement rule as the spec states it: strictly less than
`bestValid - 1e-6`. Exists only for comparison with `isBetterMin`; the source
comparison is non-strict. -/
def isBetterMinStrictSpec (curValid bestValid : ℚ) : Bool :=
  decide (curValid < bestValid - 1/1000000)

/-- C3 (counterexample): with bestValid = 0.5, the new value 0.499999 sits
exactly on the epsilon boundary; the source's non-strict `<=` DOES trigger a
best-checkpoint write there, contradicting the claim that the value must be
strictly below `bestValid - 1e-6` and that 0.499999 does not trigger one. -/
theorem best_checkpoint_boundary_counterexample :
    isBetterMin (499999/1000000) (1/2) = true ∧
    isBetterMinStrictSpec (499999/1000000) (1/2) = false := by
  constructor
  · unfold isBetterMin
    rw [decide_eq_true_iff]
    norm_num
  · unfold isBetterMinStrictSpec
    rw [decide_eq_false_iff_not]
    norm_num

/-- C3 (amended): with optimization direction 'min', a best-checkpoint write
triggers iff the new value is less than or EQUAL to `bestValid - 1e-6`
(non-strict comparison); concretely 0.499999 against best 0.5 triggers a
write, and so does 0.498. -/
theorem best_checkpoint_rule_nonstrict :
    (∀ curValid bestValid : ℚ,
      isBetterMin curValid bestValid = true ↔
        curValid ≤ bestValid - 1/1000000) ∧
    isBetterMin (499999/1000000) (1/2) = true ∧
    isBetterMin (498/1000) (1/2) = true := by
  refine ⟨fun c b => by simp [isBetterMin], ?_, ?_⟩ <;>
    (unfold isBetterMin; rw [decide_eq_true_iff]; norm_num)

/-!
## The missing zero guard on `normalizedTotal` (lines 68, 71, 163, 166)
-/

/-- Modelled from the spec: the scheduler step with the explicit zero guard
the spec prescribes — "guard against division by zero explicitly, treating it
as no rounding applied, use raw total, if the rounded value is 0". It exists
only for comparison with `schedStep`; the source contains no such guard. -/
def schedStepSpecGuard (total idx : ℕ) (c : Counters) : Presence × Counters :=
  let nt : ℕ := if normalizedTotal total = 0 then total else normalizedTotal total
  if (c.missTwo : ℚ) / (nt : ℚ) < miss_2.getD idx 0 then
    (Presence.one, { c with missTwo := c.missTwo + 1 })
  else if (c.missOne : ℚ) / (nt : ℚ) < miss_1.getD idx 0 then
    (Presence.two, { c with missOne := c.missOne + 1 })
  else
    (Presence.three, c)

/-- C4 (counterexample): with 2 batches the rounded total is 0; the source
assigns THREE to the first batch (nan/inf comparisons are false), while the
spec's raw-total guard would assign ONE — the code does not use the raw
total. -/
theorem scheduler_zero_guard_counterexample :
    normalizedTotal 2 = 0 ∧
    (schedStep 2 3 ⟨0, 0⟩).1 = Presence.three ∧
    (schedStepSpecGuard 2 3 ⟨0, 0⟩).1 = Presence.one ∧
    schedStep 2 3 ⟨0, 0⟩ ≠ schedStepSpecGuard 2 3 ⟨0, 0⟩ := by
  have h0 : normalizedTotal 2 = 0 := by rw [normalizedTotal_eq]; decide
  have hcode : schedStep 2 3 ⟨0, 0⟩ = (Presence.three, ⟨0, 0⟩) := by
    rw [schedStep_eq]; decide
  have hguard : schedStepSpecGuard 2 3 ⟨0, 0⟩ = (Presence.one, ⟨1, 0⟩) := by
    unfold schedStepSpecGuard
    rw [miss_2_getD]
    simp only [h0, if_pos]
    rw [if_pos]
    norm_num [miss_2N]
  refine ⟨h0, by rw [hcode], by rw [hguard], by rw [hcode, hguard]; decide⟩

/-- C4 (amended): there is no explicit zero guard; whenever
`round(N/10)*10 = 0` the IEEE divisions yield nan or +inf, no exception is
raised, both ratio comparisons are false, and every batch receives
THREE-modality presence with the counters unchanged — the raw total is never
substituted. -/
theorem scheduler_zero_normalized_total_all_three (total idx : ℕ) (c : Counters)
    (h : normalizedTotal total = 0) :
    schedStep total idx c = (Presence.three, c) := by
  unfold schedStep
  rw [h]
  simp [floatRatioLt]

/-- Witness for `scheduler_zero_normalized_total_all_three` at
`total = 2`, `idx = 6`, counters (3, 1). -/
theorem scheduler_zero_normalized_total_witness :
    normalizedTotal 2 = 0 ∧ schedStep 2 6 ⟨3, 1⟩ = (Presence.three, ⟨3, 1⟩) :=
  have h : normalizedTotal 2 = 0 := by rw [normalizedTotal_eq]; decide
  ⟨h, scheduler_zero_normalized_total_all_three 2 6 ⟨3, 1⟩ h⟩

/-!
## Eval-loss rounding (lines 180-188) and its consumers (lines 112-113)
-/

/-- Python `round(x, 4)`: round half to even at 4 decimal digits. -/
def pyRound4 (q : ℚ) : ℚ := ((roundHalfEven (q * 10000) : ℤ) : ℚ) / 10000

/-- The mean criterion loss of an eval pass: `eval_loss` accumulated per batch
(line 181) and divided by `len(dataloader)` (line 184). -/
def evalMeanLoss (batchLosses : List ℚ) : ℚ :=
  batchLosses.sum / (batchLosses.length : ℚ)

/-- The `Loss` entry of the results dict `do_test` returns:
`eval_results["Loss"] = round(eval_loss, 4)` (line 188). The full-precision
`eval_loss` is a local that is not returned. -/
def evalResultsLoss (batchLosses : List ℚ) : ℚ := pyRound4 (evalMeanLoss batchLosses)

/-- The value `do_train` feeds to ReduceLROnPlateau:
`scheduler.step(val_results['Loss'])` (line 113) reads the returned dict,
whose Loss entry is the rounded value. -/
def lrSchedulerInput (valBatchLosses : List ℚ) : ℚ := evalResultsLoss valBatchLosses

/-- `cur_valid = val_results[self.args.KeyEval]` (line 112) in the
`KeyEval = 'Loss'` configuration: the Loss entry of the returned dict. -/
def curValidLossKey (valBatchLosses : List ℚ) : ℚ := evalResultsLoss valBatchLosses

lemma roundHalfEven_third : roundHalfEven ((1:ℚ)/3 * 10000) = 3333 := by
  have hq : ((1:ℚ)/3) * 10000 = ((10000:ℤ):ℚ)/((3:ℕ):ℚ) := by norm_num
  have hfloor : ⌊((1:ℚ)/3) * 10000⌋ = 3333 := by
    rw [hq, Rat.floor_intCast_div_natCast]
    decide
  unfold roundHalfEven
  rw [hfloor, if_pos]
  rw [hq]
  push_cast
  norm_num

lemma evalMeanLoss_third : evalMeanLoss [1/3] = 1/3 := by
  unfold evalMeanLoss
  simp

lemma evalResultsLoss_third : evalResultsLoss [1/3] = 3333/10000 := by
  unfold evalResultsLoss pyRound4
  rw [evalMeanLoss_third, roundHalfEven_third]
  norm_num

lemma evalResultsLoss_third_ne_mean : evalResultsLoss [1/3] ≠ evalMeanLoss [1/3] := by
  rw [evalMeanLoss_third, evalResultsLoss_third]
  norm_num

/-- C5 (counterexample): with a single validation batch of loss 1/3, the
returned Loss entry is 0.3333, and that rounded value — not the full-precision
mean 1/3 — is what the LR scheduler and the best-valid comparison read. -/
theorem eval_loss_rounding_counterexample :
    evalMeanLoss [1/3] = 1/3 ∧
    evalResultsLoss [1/3] = 3333/10000 ∧
    lrSchedulerInput [1/3] ≠ evalMeanLoss [1/3] ∧
    curValidLossKey [1/3] ≠ evalMeanLoss [1/3] :=
  ⟨evalMeanLoss_third, evalResultsLoss_third,
   evalResultsLoss_third_ne_mean, evalResultsLoss_third_ne_mean⟩

/-- C5 (amended): the eval pass returns the mean loss rounded to 4 decimal
digits, and this rounded value — not the discarded full-precision mean — is
what both the best-validation comparison (when KeyEval is 'Loss') and the LR
scheduler consume; concretely for batch losses [1/3] they read 0.3333 ≠ 1/3. -/
theorem eval_loss_rounded_value_used_for_comparisons :
    (∀ ls : List ℚ,
      lrSchedulerInput ls = pyRound4 (evalMeanLoss ls) ∧
      curValidLossKey ls = pyRound4 (evalMeanLoss ls)) ∧
    lrSchedulerInput [1/3] = 3333/10000 ∧
    lrSchedulerInput [1/3] ≠ evalMeanLoss [1/3] :=
  ⟨fun _ => ⟨rfl, rfl⟩, evalResultsLoss_third, evalResultsLoss_third_ne_mean⟩

/-!
## Combined loss (line 83)
-/

/-- `combine_loss = task_loss + 0.1 * (loss_score_l + loss_score_v +
loss_score_a + loss_rec)` (line 83). -/
def combineLoss (taskLoss lossScoreL lossScoreV lossScoreA lossRec : ℚ) : ℚ :=
  taskLoss + (1/10) * (lossScoreL + lossScoreV + lossScoreA + lossRec)

/-- C8: the combined loss equals the primary task loss plus each of the four
auxiliary losses weighted by 0.1. -/
theorem combine_loss_weights (t l v a r : ℚ) :
    combineLoss t l v a r =
      t + (1/10) * l + (1/10) * v + (1/10) * a + (1/10) * r := by
  unfold combineLoss
  ring

/-!
## Scheduler invariants over a pass
-/

lemma schedStep_cases (total idx : ℕ) (c : Counters) :
    schedStep total idx c = (Presence.one, { c with missTwo := c.missTwo + 1 }) ∨
    schedStep total idx c = (Presence.two, { c with missOne := c.missOne + 1 }) ∨
    schedStep total idx c = (Presence.three, c) := by
  unfold schedStep
  split
  · exact Or.inl rfl
  · split
    · exact Or.inr (Or.inl rfl)
    · exact Or.inr (Or.inr rfl)

lemma schedCounters_succ_le (total idx k : ℕ) :
    (schedCounters total idx k).missTwo ≤ (schedCounters total idx (k+1)).missTwo ∧
    (schedCounters total idx k).missOne ≤ (schedCounters total idx (k+1)).missOne ∧
    (schedCounters total idx (k+1)).missTwo + (schedCounters total idx (k+1)).missOne ≤
      (schedCounters total idx k).missTwo + (schedCounters total idx k).missOne + 1 := by
  have hs : schedCounters total idx (k+1) =
      (schedStep total idx (schedCounters total idx k)).2 := rfl
  rcases schedStep_cases total idx (schedCounters total idx k) with h | h | h <;>
    rw [hs, h] <;> dsimp <;> omega

lemma schedCounters_sum_le (total idx : ℕ) :
    ∀ k, (schedCounters total idx k).missTwo + (schedCounters total idx k).missOne ≤ k
  | 0 => Nat.le.refl
  | k + 1 => by
    have h1 := schedCounters_sum_le total idx k
    have h2 := (schedCounters_succ_le total idx k).2.2
    omega

lemma schedCounters_mono (total idx : ℕ) {j m : ℕ} (h : j ≤ m) :
    (schedCounters total idx j).missTwo ≤ (schedCounters total idx m).missTwo ∧
    (schedCounters total idx j).missOne ≤ (schedCounters total idx m).missOne := by
  induction h with
  | refl => exact ⟨le_refl _, le_refl _⟩
  | @step m hjm ih =>
    have hs := schedCounters_succ_le total idx m
    exact ⟨le_trans ih.1 hs.1, le_trans ih.2 hs.2.1⟩

/-- C7: within a pass of N ≥ 1 batches, after any k ≤ N batches the counters
sum to at most k (so neither exceeds N), each batch bumps at most one counter
by at most one, both counters are non-decreasing from batch to batch, and the
decision is always one of ONE, TWO, THREE. -/
theorem scheduler_counter_invariants (total idx N k : ℕ)
    (_hN : 1 ≤ N) (hk : k ≤ N) :
    ((schedCounters total idx k).missTwo + (schedCounters total idx k).missOne ≤ k) ∧
    ((schedCounters total idx k).missTwo ≤ N ∧ (schedCounters total idx k).missOne ≤ N) ∧
    ((schedCounters total idx k).missTwo ≤ (schedCounters total idx (k+1)).missTwo ∧
      (schedCounters total idx k).missOne ≤ (schedCounters total idx (k+1)).missOne) ∧
    ((schedCounters total idx (k+1)).missTwo + (schedCounters total idx (k+1)).missOne ≤
      (schedCounters total idx k).missTwo + (schedCounters total idx k).missOne + 1) ∧
    (schedPresence total idx k = Presence.one ∨ schedPresence total idx k = Presence.two ∨
      schedPresence total idx k = Presence.three) := by
  have hsum := schedCounters_sum_le total idx k
  have hstep := schedCounters_succ_le total idx k
  refine ⟨hsum, ⟨by omega, by omega⟩, ⟨hstep.1, hstep.2.1⟩, hstep.2.2, ?_⟩
  unfold schedPresence
  rcases schedStep_cases total idx (schedCounters total idx k) with h | h | h <;>
    rw [h] <;> simp

/-- Witness for `scheduler_counter_invariants` at total 10, table index 3,
N = 10, k = 7. -/
theorem scheduler_counter_invariants_witness :
    (1 ≤ 10 ∧ 7 ≤ 10) ∧
    (((schedCounters 10 3 7).missTwo + (schedCounters 10 3 7).missOne ≤ 7) ∧
      ((schedCounters 10 3 7).missTwo ≤ 10 ∧ (schedCounters 10 3 7).missOne ≤ 10) ∧
      ((schedCounters 10 3 7).missTwo ≤ (schedCounters 10 3 8).missTwo ∧
        (schedCounters 10 3 7).missOne ≤ (schedCounters 10 3 8).missOne) ∧
      ((schedCounters 10 3 8).missTwo + (schedCounters 10 3 8).missOne ≤
        (schedCounters 10 3 7).missTwo + (schedCounters 10 3 7).missOne + 1) ∧
      (schedPresence 10 3 7 = Presence.one ∨ schedPresence 10 3 7 = Presence.two ∨
        schedPresence 10 3 7 = Presence.three)) :=
  ⟨⟨by decide, by decide⟩,
   scheduler_counter_invariants 10 3 10 7 (by decide) (by decide)⟩

/-- C9: the scheduler decision is a pure, deterministic function of the
counters, the total batch count and the table index: identical inputs give
identical decisions and identical updated counters. -/
theorem scheduler_deterministic (total1 total2 idx1 idx2 : ℕ) (c1 c2 : Counters)
    (htotal : total1 = total2) (hidx : idx1 = idx2) (hc : c1 = c2) :
    schedStep total1 idx1 c1 = schedStep total2 idx2 c2 := by
  rw [htotal, hidx, hc]

/-- Witness for `scheduler_deterministic` at total 10, index 3,
counters (2, 1). -/
theorem scheduler_deterministic_witness :
    (10 = 10 ∧ 3 = 3 ∧ (⟨2, 1⟩ : Counters) = ⟨2, 1⟩) ∧
    schedStep 10 3 ⟨2, 1⟩ = schedStep 10 3 ⟨2, 1⟩ :=
  ⟨⟨rfl, rfl, rfl⟩, scheduler_deterministic 10 10 3 3 ⟨2, 1⟩ ⟨2, 1⟩ rfl rfl rfl⟩

/-!
## Zero one-missing targets (table indices 5 and 6)
-/

lemma floatRatioLt_zero_target (count nt : ℕ) : floatRatioLt count nt 0 = false := by
  have h : ¬ ((count : ℚ) / (nt : ℚ) < 0) :=
    not_lt.mpr (div_nonneg (Nat.cast_nonneg _) (Nat.cast_nonneg _))
  simp [floatRatioLt, h]

lemma miss_1_getD_zero {idx : ℕ} (h : idx = 5 ∨ idx = 6) : miss_1.getD idx 0 = 0 := by
  rcases h with h | h <;> subst h <;> rfl

lemma schedStep_one_missing_frozen (total : ℕ) {idx : ℕ}
    (h : miss_1.getD idx 0 = 0) (c : Counters) :
    (schedStep total idx c).2.missOne = c.missOne ∧
    (schedStep total idx c).1 ≠ Presence.two := by
  unfold schedStep
  rw [h, floatRatioLt_zero_target]
  split
  · exact ⟨rfl, by simp⟩
  · simp

lemma schedCounters_one_missing_zero (total : ℕ) {idx : ℕ}
    (h : miss_1.getD idx 0 = 0) :
    ∀ k, (schedCounters total idx k).missOne = 0
  | 0 => rfl
  | k + 1 => by
    have ih := schedCounters_one_missing_zero total h k
    have hs := (schedStep_one_missing_frozen total h (schedCounters total idx k)).1
    show (schedStep total idx (schedCounters total idx k)).2.missOne = 0
    rw [hs, ih]

lemma mrIndex_06 : mrIndex (6/10) = 5 := by
  have h : (6/10 : ℚ) * 10 - 1 = 5 := by norm_num
  rw [mrIndex, h, Int.floor_ofNat]
  rfl

/-- C10: for any missing rate whose table index `int(mr*10-1)` is 5 or 6 (a
0.0 one-missing target), the strict comparison `miss_one / normalizedTotal <
0.0` is always false, so no batch of the pass is ever assigned TWO-modality
presence and `miss_one` stays 0 for the whole pass. -/
theorem scheduler_no_two_presence_when_target_zero (mr : ℚ)
    (h : mrIndex mr = 5 ∨ mrIndex mr = 6) (total k : ℕ) :
    (schedCounters total (mrIndex mr) k).missOne = 0 ∧
    schedPresence total (mrIndex mr) k ≠ Presence.two := by
  have h0 : miss_1.getD (mrIndex mr) 0 = 0 := miss_1_getD_zero h
  exact ⟨schedCounters_one_missing_zero total h0 k,
    (schedStep_one_missing_frozen total h0 (schedCounters total (mrIndex mr) k)).2⟩

/-- Witness for `scheduler_no_two_presence_when_target_zero` at mr = 0.6
(table index 5), total 12 batches, after 12 batches. -/
theorem scheduler_no_two_presence_witness :
    (mrIndex (6/10) = 5 ∨ mrIndex (6/10) = 6) ∧
    ((schedCounters 12 (mrIndex (6/10)) 12).missOne = 0 ∧
      schedPresence 12 (mrIndex (6/10)) 12 ≠ Presence.two) :=
  ⟨Or.inl mrIndex_06,
   scheduler_no_two_presence_when_target_zero (6/10) (Or.inl mrIndex_06) 12 12⟩

/-!
## Training controller: epoch counter, best tracking, early stop
(lines 22, 30, 43-44, 110-133)
-/

/-- Controller state across epochs: `epochs`, `best_epoch` (line 22) and
`best_valid` (line 30; `1e8` in the 'min' direction). -/
structure TrainState where
  epochs : ℕ
  bestEpoch : ℕ
  bestValid : ℚ
deriving DecidableEq, Repr

/-- Initial controller state for the 'min' direction. -/
def trainInit : TrainState := ⟨0, 0, 100000000⟩

/-- One iteration of the `while True` epoch loop, reduced to the bookkeeping
the controller claims are about: `epochs += 1` (line 44), the best update
`if isBetter: best_valid, best_epoch = cur_valid, epochs` (lines 118-120),
and the early-stop test `epochs - best_epoch >= self.args.early_stop`
(line 132). Returns the updated state and whether the loop returns. -/
def trainEpoch (earlyStop : ℕ) (curValid : ℚ) (s : TrainState) : TrainState × Bool :=
  let epochs := s.epochs + 1
  let s' : TrainState :=
    if isBetterMin curValid s.bestValid then ⟨epochs, epochs, curValid⟩
    else ⟨epochs, s.bestEpoch, s.bestValid⟩
  (s', decide (earlyStop ≤ s'.epochs - s'.bestEpoch))

/-- The epoch loop run on a stream of per-epoch validation values (`vals e`
is `cur_valid` of 1-based epoch `e`), with `fuel` bounding the iterations.
The per-epoch values are accumulated when `return_epoch_results` is set
(lines 125-130); at the early-stop return they are yielded if requested,
else nothing (line 133). `none` means the fuel ran out while still
Running. -/
def trainRun (earlyStop : ℕ) (vals : ℕ → ℚ) (retResults : Bool) :
    ℕ → TrainState → List ℚ → Option (TrainState × Option (List ℚ))
  | 0, _, _ => none
  | fuel + 1, s, acc =>
    let r := trainEpoch earlyStop (vals (s.epochs + 1)) s
    let acc' := if retResults then acc ++ [vals (s.epochs + 1)] else acc
    if r.2 then some (r.1, if retResults then some acc' else none)
    else trainRun earlyStop vals retResults fuel r.1 acc'

/-- ℤ-valued mirror of `TrainState` for concrete evaluation. -/
structure TrainStateN where
  epochs : ℕ
  bestEpoch : ℕ
  bestValid : ℤ
deriving DecidableEq, Repr

/-- Mirror of `trainEpoch` over ℤ validation values: for integers, the
epsilon rule `cur ≤ best - 1e-6` is exactly `cur < best`. -/
def trainEpochN (earlyStop : ℕ) (curValid : ℤ) (s : TrainStateN) : TrainStateN × Bool :=
  let epochs := s.epochs + 1
  let s' : TrainStateN :=
    if curValid < s.bestValid then ⟨epochs, epochs, curValid⟩
    else ⟨epochs, s.bestEpoch, s.bestValid⟩
  (s', decide (earlyStop ≤ s'.epochs - s'.bestEpoch))

/-- Mirror of `trainRun` over ℤ validation values. -/
def trainRunN (earlyStop : ℕ) (vals : ℕ → ℤ) (retResults : Bool) :
    ℕ → TrainStateN → List ℤ → Option (TrainStateN × Option (List ℤ))
  | 0, _, _ => none
  | fuel + 1, s, acc =>
    let r := trainEpochN earlyStop (vals (s.epochs + 1)) s
    let acc' := if retResults then acc ++ [vals (s.epochs + 1)] else acc
    if r.2 then some (r.1, if retResults then some acc' else none)
    else trainRunN earlyStop vals retResults fuel r.1 acc'

lemma isBetterMin_intCast (a b : ℤ) :
    isBetterMin (a : ℚ) (b : ℚ) = decide (a < b) := by
  unfold isBetterMin
  apply decide_eq_decide.mpr
  constructor
  · intro h
    by_contra hc
    push_neg at hc
    have hba : (b : ℚ) ≤ (a : ℚ) := by exact_mod_cast hc
    linarith
  · intro h
    have h1 : a + 1 ≤ b := Int.lt_iff_add_one_le.mp h
    have h2 : (a : ℚ) + 1 ≤ (b : ℚ) := by exact_mod_cast h1
    linarith

/-- Interpret a mirror state as a source state. -/
def castTrainState (s : TrainStateN) : TrainState :=
  ⟨s.epochs, s.bestEpoch, (s.bestValid : ℚ)⟩

lemma castTrainState_epochs (s : TrainStateN) :
    (castTrainState s).epochs = s.epochs := rfl

lemma trainEpoch_cast (earlyStop : ℕ) (cv : ℤ) (s : TrainStateN) :
    trainEpoch earlyStop (cv : ℚ) (castTrainState s) =
      (castTrainState (trainEpochN earlyStop cv s).1,
        (trainEpochN earlyStop cv s).2) := by
  unfold trainEpoch trainEpochN castTrainState
  dsimp only
  rw [isBetterMin_intCast]
  by_cases h : cv < s.bestValid
  · simp [h]
  · simp [h]

lemma trainRun_cast (earlyStop : ℕ) (vals : ℕ → ℤ) (retResults : Bool) :
    ∀ fuel (s : TrainStateN) (acc : List ℤ),
      trainRun earlyStop (fun e => ((vals e : ℤ) : ℚ)) retResults fuel
          (castTrainState s) (acc.map (fun z => ((z : ℤ) : ℚ))) =
        Option.map
          (fun r => (castTrainState r.1, r.2.map (List.map (fun z => ((z : ℤ) : ℚ)))))
          (trainRunN earlyStop vals retResults fuel s acc)
  | 0, s, acc => rfl
  | fuel + 1, s, acc => by
    unfold trainRun trainRunN
    dsimp only
    rw [castTrainState_epochs, trainEpoch_cast]
    cases hr : (trainEpochN earlyStop (vals (s.epochs + 1)) s).2 <;>
      cases retResults <;>
      simp only [hr, Bool.false_eq_true, if_false, if_true, ite_true, ite_false]
    · exact trainRun_cast earlyStop vals false fuel _ _
    · simpa using trainRun_cast earlyStop vals true fuel
        (trainEpochN earlyStop (vals (s.epochs + 1)) s).1 (acc ++ [vals (s.epochs + 1)])
    · simp
    · simp

/-- Per-epoch validation values for the concrete early-stop scenario: strict
improvement up to epoch 5, flat afterwards. -/
def c6valsN : ℕ → ℤ := fun e => if e ≤ 5 then 10 - (e : ℤ) else 5

/-- The same validation stream as rationals. -/
def c6vals : ℕ → ℚ := fun e => ((c6valsN e : ℤ) : ℚ)

/-- C6: the loop's per-epoch stop flag is true exactly when
`epochs - best_epoch >= early_stop` (so the run never stops before the
condition holds); concretely with patience 8 and the best epoch settling at
5, the run stops exactly at epoch 13, returning the accumulated per-epoch
results when requested and nothing otherwise. -/
theorem controller_early_stop_exact :
    (∀ (earlyStop : ℕ) (curValid : ℚ) (s : TrainState),
      (trainEpoch earlyStop curValid s).2 = true ↔
        earlyStop ≤ (trainEpoch earlyStop curValid s).1.epochs -
          (trainEpoch earlyStop curValid s).1.bestEpoch) ∧
    trainRun 8 c6vals true 20 trainInit [] =
      some (⟨13, 5, 5⟩, some [9, 8, 7, 6, 5, 5, 5, 5, 5, 5, 5, 5, 5]) ∧
    trainRun 8 c6vals false 20 trainInit [] = some (⟨13, 5, 5⟩, none) := by
  have hinit : trainInit = castTrainState ⟨0, 0, 100000000⟩ := by
    simp [castTrainState, trainInit]
  have hvals : c6vals = fun e => ((c6valsN e : ℤ) : ℚ) := rfl
  have hnil : ([] : List ℚ) = ([] : List ℤ).map (fun z => ((z : ℤ) : ℚ)) := rfl
  refine ⟨?_, ?_, ?_⟩
  · intro es cv s
    unfold trainEpoch
    dsimp only
    simp
  · have hN : trainRunN 8 c6valsN true 20 ⟨0, 0, 100000000⟩ [] =
        some (⟨13, 5, 5⟩, some [9, 8, 7, 6, 5, 5, 5, 5, 5, 5, 5, 5, 5]) := by
      decide
    rw [hinit, hvals, hnil, trainRun_cast, hN]
    simp [castTrainState]
  · have hN : trainRunN 8 c6valsN false 20 ⟨0, 0, 100000000⟩ [] =
        some (⟨13, 5, 5⟩, none) := by
      decide
    rw [hinit, hvals, hnil, trainRun_cast, hN]
    simp [castTrainState]

end IMDER
